import Mathlib

/-!
# Verification of the real-time delivery and ephemeral-lifecycle subsystem

Shallow embedding of the backend's WebSocket protocol handler
(`src/backend/src/websocket.rs`), the Redis presence/unread client
(`src/backend/src/redis_client.rs`), the chat-room creation endpoint
(`src/backend/src/chat.rs`) and the expiration sweeper
(`src/backend/src/expiration.rs`).

Identifiers (UUIDs) are modelled as `Nat`, timestamps as `Nat`, media URLs
and S3 keys as `List Char`.  The relational store is modelled as lists of
rows; SQL queries become pure functions over those lists.  Fallible
database calls are modelled with explicit fault flags: a flag set means the
corresponding query returns an error, exactly at the places the Rust code
receives a `Result` from sqlx.
-/

namespace SocialApp

abbrev UserId := Nat
abbrev RoomId := Nat
abbrev MsgId := Nat
abbrev Time := Nat

/-- A row of the `messages` table. -/
structure Msg where
  id : MsgId
  chatRoomId : RoomId
  senderId : UserId
  messageType : String
  content : Option String
  mediaUrl : Option (List Char)
  viewOnce : Bool
  expiresAt : Option Time
  createdAt : Time
  deletedAt : Option Time
deriving Repr, DecidableEq

/-- A row of the `media` table (standalone media assets). -/
structure MediaRow where
  id : Nat
  s3Key : List Char
  thumbnailS3Key : Option (List Char)
  expiresAt : Option Time
deriving Repr, DecidableEq

/-- A row of the `chat_rooms` table. -/
structure Room where
  id : RoomId
  isGroup : Bool
  name : Option String
deriving Repr, DecidableEq

/-- The relational store: each field is one table, a list of rows.
`nextMessageId`/`nextRoomId` model the id generator of the database. -/
structure Db where
  users : List (UserId × String)
  chatRooms : List Room
  chatMembers : List (RoomId × UserId)
  messages : List Msg
  messageReads : List (MsgId × UserId)
  messageViews : List (MsgId × UserId)
  savedMessages : List (MsgId × UserId)
  media : List MediaRow
  nextMessageId : MsgId
  nextRoomId : RoomId
deriving Repr, DecidableEq

/-- `SELECT username FROM users WHERE id = $1` (one row or nothing). -/
def lookupUser (db : Db) (u : UserId) : Option String :=
  (db.users.find? (fun p => p.1 == u)).map (·.2)

/-- `SELECT user_id FROM chat_members WHERE chat_room_id = $1`. -/
def membersOf (db : Db) (room : RoomId) : List UserId :=
  (db.chatMembers.filter (fun p => p.1 == room)).map (·.2)

/-- `SELECT ... FROM messages WHERE id = $1` (one row or nothing). -/
def lookupMessage (db : Db) (mid : MsgId) : Option Msg :=
  db.messages.find? (fun m => m.id == mid)

/-- `UPDATE messages SET deleted_at = NOW() WHERE id = $1`. -/
def softDelete (db : Db) (mid : MsgId) (now : Time) : Db :=
  { db with messages :=
      db.messages.map (fun m => if m.id = mid then { m with deletedAt := some now } else m) }

/-! ## Redis presence / unread store (`redis_client.rs`) -/

/-- The transient Redis state used by the handler: per-(user, room) unread
counters (`unread:{user}:{room}` keys) and typing markers
(`typing:{room}:{user}` keys). -/
structure RedisState where
  unread : List ((UserId × RoomId) × Nat)
  typing : List (RoomId × UserId)
deriving Repr, DecidableEq

/-- `get_unread_count`: `GET` with `unwrap_or(0)`. -/
def getUnread (r : RedisState) (u : UserId) (room : RoomId) : Nat :=
  match r.unread.find? (fun p => p.1 == (u, room)) with
  | some p => p.2
  | none => 0

/-- `increment_unread`: `INCR` — a missing key counts as 0 before the
increment. -/
def incrementUnread (r : RedisState) (u : UserId) (room : RoomId) : RedisState :=
  if (r.unread.find? (fun p => p.1 == (u, room))).isSome then
    { r with unread := r.unread.map (fun p => if p.1 = (u, room) then (p.1, p.2 + 1) else p) }
  else
    { r with unread := r.unread ++ [((u, room), 1)] }

/-- `clear_unread`: `DEL` of the counter key. -/
def clearUnread (r : RedisState) (u : UserId) (room : RoomId) : RedisState :=
  { r with unread := r.unread.filter (fun p => ¬ p.1 = (u, room)) }

/-- `set_typing`: `SET` of the typing key (idempotent presence). -/
def setTyping (r : RedisState) (u : UserId) (room : RoomId) : RedisState :=
  if (room, u) ∈ r.typing then r else { r with typing := r.typing ++ [(room, u)] }

/-- `clear_typing`: `DEL` of the typing key. -/
def clearTyping (r : RedisState) (u : UserId) (room : RoomId) : RedisState :=
  { r with typing := r.typing.filter (fun p => ¬ p = (room, u)) }

/-! ## Connection registry (`websocket.rs`, `Connections` DashMap) -/

/-- The global connections table: user id to broadcast-channel handle
(channels are identified by a `Nat` handle). -/
abbrev Connections := List (UserId × Nat)

/-- `connections.get(&user)`. -/
def connGet (c : Connections) (u : UserId) : Option Nat :=
  (c.find? (fun p => p.1 == u)).map (·.2)

/-- `state.connections.entry(user_id).or_insert_with(|| broadcast::channel(100))`:
return the existing channel for the user, or insert `fresh` if absent. -/
def register (c : Connections) (u : UserId) (fresh : Nat) : Nat × Connections :=
  match connGet c u with
  | some ch => (ch, c)
  | none => (fresh, c ++ [(u, fresh)])

/-- Number of registry entries held by one user. -/
def entriesFor (c : Connections) (u : UserId) : Nat :=
  (c.filter (fun p => p.1 == u)).length

/-! ## Protocol events (`WsMessage` in `websocket.rs`) -/

/-- Client-to-server variants of `WsMessage`. -/
inductive ClientEvent where
  | sendMessage (chatRoomId : RoomId) (content : Option String) (messageType : String)
      (mediaUrl : Option (List Char)) (viewOnce : Bool) (expiresInSeconds : Option Nat)
  | typingStart (chatRoomId : RoomId)
  | typingStop (chatRoomId : RoomId)
  | markRead (messageId : MsgId)
  | markViewed (messageId : MsgId)
deriving Repr, DecidableEq

/-- Server-to-client variants of `WsMessage`. -/
inductive ServerEvent where
  | newMessage (id : MsgId) (chatRoomId : RoomId) (senderId : UserId)
      (senderUsername : String) (messageType : String) (content : Option String)
      (mediaUrl : Option (List Char)) (viewOnce : Bool) (createdAt : Time)
  | userTyping (chatRoomId : RoomId) (userId : UserId) (username : String)
  | userStoppedTyping (chatRoomId : RoomId) (userId : UserId)
  | messageRead (messageId : MsgId) (userId : UserId) (readAt : Time)
  | messageViewed (messageId : MsgId) (userId : UserId) (viewedAt : Time)
  | messageExpired (messageId : MsgId)
  | errorEvent (message : String)
deriving Repr, DecidableEq

/-- Fault injection for the database queries issued by `handle_ws_message`:
a set flag makes the corresponding sqlx call return `Err`. -/
structure Faults where
  insertMessageFails : Bool
  senderLookupFails : Bool
  membersLookupFails : Bool
  readInsertFails : Bool
  viewInsertFails : Bool
  messageLookupFails : Bool
  deleteUpdateFails : Bool
  expiredMembersLookupFails : Bool
deriving Repr, DecidableEq

/-- All database calls succeed. -/
def noFaults : Faults := ⟨false, false, false, false, false, false, false, false⟩

/-- Result of processing one inbound event: the new database and Redis
states plus the list of (target user, event) pairs handed to broadcast
channels. -/
structure HandlerResult where
  db : Db
  redis : RedisState
  out : List (UserId × ServerEvent)
deriving Repr, DecidableEq

/-- `handle_ws_message` either returns (all errors are logged and
swallowed) or panics (an `unwrap()` on an `Err`). -/
inductive Outcome where
  | ok (r : HandlerResult)
  | panicked
deriving Repr, DecidableEq

/-- The fan-out loop of the SendMessage arm: members with a registry entry
get the event on their channel; members without one get their unread
counter incremented instead. -/
def fanoutOrUnread (conns : Connections) (redis : RedisState) (members : List UserId)
    (room : RoomId) (ev : ServerEvent) : RedisState × List (UserId × ServerEvent) :=
  members.foldl
    (fun acc m =>
      match connGet conns m with
      | some _ => (acc.1, acc.2 ++ [(m, ev)])
      | none => (incrementUnread acc.1 m room, acc.2))
    (redis, [])

/-- The fan-out loop of the typing / expired arms: members with a registry
entry get the event, others are skipped. -/
def fanoutConnected (conns : Connections) (members : List UserId)
    (ev : ServerEvent) : List (UserId × ServerEvent) :=
  members.foldl
    (fun acc m =>
      match connGet conns m with
      | some _ => acc ++ [(m, ev)]
      | none => acc)
    []

/-- `handle_ws_message` from `websocket.rs`, one inbound event against the
stores.  `now` stands for the database clock (`NOW()` / `created_at`). -/
def handleWsMessage (now : Time) (f : Faults) (msg : ClientEvent) (userId : UserId)
    (db : Db) (redis : RedisState) (conns : Connections) : Outcome :=
  match msg with
  | .sendMessage chatRoomId content messageType mediaUrl viewOnce expiresInSeconds =>
    -- expires_at = expires_in_seconds.map(|s| now + s)
    let expiresAt := expiresInSeconds.map (fun s => now + s)
    if f.insertMessageFails then
      .ok ⟨db, redis, []⟩  -- "Failed to insert message" is logged, nothing else happens
    else
      let newMsg : Msg :=
        ⟨db.nextMessageId, chatRoomId, userId, messageType, content, mediaUrl,
          viewOnce, expiresAt, now, none⟩
      let db1 : Db :=
        { db with messages := db.messages ++ [newMsg], nextMessageId := db.nextMessageId + 1 }
      match (if f.senderLookupFails then none else lookupUser db1 userId) with
      | none => .ok ⟨db1, redis, []⟩  -- "Failed to fetch sender username" logged
      | some senderUsername =>
        if f.membersLookupFails then
          .ok ⟨db1, redis, []⟩  -- "Failed to fetch chat members" logged
        else
          let ev := ServerEvent.newMessage newMsg.id chatRoomId userId senderUsername
            messageType content mediaUrl viewOnce now
          let r := fanoutOrUnread conns redis (membersOf db1 chatRoomId) chatRoomId ev
          .ok ⟨db1, r.1, r.2⟩
  | .typingStart chatRoomId =>
    let redis1 := setTyping redis userId chatRoomId  -- result ignored with `let _`
    match (if f.senderLookupFails then none else lookupUser db userId) with
    | none => .ok ⟨db, redis1, []⟩  -- the `if let Ok` silently skips
    | some username =>
      if f.membersLookupFails then
        .panicked  -- `.unwrap()` on the chat_members query
      else
        .ok ⟨db, redis1,
          fanoutConnected conns (membersOf db chatRoomId)
            (.userTyping chatRoomId userId username)⟩
  | .typingStop chatRoomId =>
    let redis1 := clearTyping redis userId chatRoomId
    if f.membersLookupFails then
      .panicked  -- `.unwrap()` on the chat_members query
    else
      .ok ⟨db, redis1,
        fanoutConnected conns (membersOf db chatRoomId)
          (.userStoppedTyping chatRoomId userId)⟩
  | .markRead messageId =>
    if f.readInsertFails then
      .ok ⟨db, redis, []⟩  -- "Failed to insert read receipt" logged
    else if (messageId, userId) ∈ db.messageReads then
      -- ON CONFLICT DO NOTHING: fetch_optional returns Ok(None); no branch taken
      .ok ⟨db, redis, []⟩
    else
      let db1 : Db := { db with messageReads := db.messageReads ++ [(messageId, userId)] }
      match (if f.messageLookupFails then none else lookupMessage db1 messageId) with
      | none => .ok ⟨db1, redis, []⟩  -- `if let Ok` silently skips
      | some m =>
        let redis1 := clearUnread redis userId m.chatRoomId
        let out :=
          match connGet conns m.senderId with
          | some _ => [(m.senderId, ServerEvent.messageRead messageId userId now)]
          | none => []
        .ok ⟨db1, redis1, out⟩
  | .markViewed messageId =>
    if f.viewInsertFails then
      .ok ⟨db, redis, []⟩  -- "Failed to insert view record" logged
    else if (messageId, userId) ∈ db.messageViews then
      .ok ⟨db, redis, []⟩  -- ON CONFLICT DO NOTHING: second insert is Ok(None)
    else
      let db1 : Db := { db with messageViews := db.messageViews ++ [(messageId, userId)] }
      match (if f.messageLookupFails then none else lookupMessage db1 messageId) with
      | none => .ok ⟨db1, redis, []⟩
      | some m =>
        let out0 :=
          match connGet conns m.senderId with
          | some _ => [(m.senderId, ServerEvent.messageViewed messageId userId now)]
          | none => []
        if m.viewOnce then
          -- the UPDATE's result is ignored (`let _`), so processing continues
          let db2 := if f.deleteUpdateFails then db1 else softDelete db1 messageId now
          if f.expiredMembersLookupFails then
            .ok ⟨db2, redis, out0⟩
          else
            .ok ⟨db2, redis,
              out0 ++ fanoutConnected conns (membersOf db2 m.chatRoomId)
                (.messageExpired messageId)⟩
        else
          .ok ⟨db1, redis, out0⟩

/-! ## The per-connection receive loop (`handle_socket`, recv_task) -/

/-- The state threaded through the receive loop. -/
structure LoopState where
  db : Db
  redis : RedisState
deriving Repr, DecidableEq

/-- An inbound text frame after the `serde_json::from_str::<WsMessage>`
call: `none` is a frame that failed to decode as a protocol event. -/
abbrev Frame := Option ClientEvent

/-- Final outcome of the receive loop over a list of inbound frames:
`done` when every frame was consumed, `crashed` when a handler panicked
(which ends the task and tears the connection down). -/
inductive LoopResult where
  | done (st : LoopState) (out : List (UserId × ServerEvent))
  | crashed (st : LoopState) (out : List (UserId × ServerEvent))
deriving Repr, DecidableEq

/-- The recv_task loop of `handle_socket`: each decoded frame is handled
by `handleWsMessage`; a frame that fails to decode is logged
(`"Failed to parse WsMessage"`) and skipped, and the loop moves on to the
next frame.  Each frame carries its own fault injection. -/
def recvLoop (now : Time) (uid : UserId) (conns : Connections) :
    List (Frame × Faults) → LoopState → List (UserId × ServerEvent) → LoopResult
  | [], st, acc => .done st acc
  | (frame, f) :: rest, st, acc =>
    match frame with
    | none => recvLoop now uid conns rest st acc
    | some ev =>
      match handleWsMessage now f ev uid st.db st.redis conns with
      | .ok r => recvLoop now uid conns rest ⟨r.db, r.redis⟩ (acc ++ r.out)
      | .panicked => .crashed st acc

/-! ## Expiration sweeper (`expiration.rs`) -/

/-- The world seen by the sweeper: the database plus the S3 object store
(a set of keys, including thumbnails). -/
structure World where
  db : Db
  s3 : List (List Char)
deriving Repr, DecidableEq

/-- The pattern `".s3.amazonaws.com/"` used by `extract_s3_key`. -/
def sepChars : List Char := String.toList ".s3.amazonaws.com/"

/-- Locate the first occurrence of `sep` in a character list, returning
the text before it and the text after it. -/
def findSplit (sep : List Char) : List Char → Option (List Char × List Char)
  | [] => none
  | c :: rest =>
    if sep.isPrefixOf (c :: rest) then some ([], (c :: rest).drop sep.length)
    else
      match findSplit sep rest with
      | some (pre, post) => some (c :: pre, post)
      | none => none

/-- `extract_s3_key`: `url.split(".s3.amazonaws.com/").nth(1)` — the
second chunk of the split, i.e. the text after the first occurrence of the
pattern, up to the next occurrence if any. -/
def extract_s3_key (url : List Char) : Option (List Char) :=
  match findSplit sepChars url with
  | none => none
  | some (_, post) =>
    match findSplit sepChars post with
    | none => some post
    | some (k, _) => some k

/-- `media_service.delete_media(key)`: removing an S3 object; deleting an
absent object is a success (the result is ignored by every caller). -/
def deleteMedia (w : World) (k : List Char) : World :=
  { w with s3 := w.s3.filter (fun x => ¬ x = k) }

/-- The WHERE clause of the expired-messages SELECT:
`expires_at IS NOT NULL AND expires_at < NOW() AND deleted_at IS NULL`. -/
def expiredUndeleted (now : Time) (m : Msg) : Bool :=
  (match m.expiresAt with
   | some t => decide (t < now)
   | none => false) && m.deletedAt == none

/-- The expired-messages SELECT of `cleanup_expired_messages`. -/
def selectExpired (now : Time) (db : Db) : List Msg :=
  db.messages.filter (expiredUndeleted now)

/-- The loop body shared by `cleanup_expired_messages` and
`cleanup_viewed_view_once_messages`: soft-delete the row, then delete the
backing media object when the URL yields an S3 key.  The second component
accumulates the keys passed to `delete_media` (the pass's side effects). -/
def sweepMsgStep (now : Time) (wo : World × List (List Char)) (m : Msg) :
    World × List (List Char) :=
  let w1 : World := { wo.1 with db := softDelete wo.1.db m.id now }
  match m.mediaUrl with
  | some url =>
    match extract_s3_key url with
    | some k => (deleteMedia w1 k, wo.2 ++ [k])
    | none => (w1, wo.2)
  | none => (w1, wo.2)

/-- `cleanup_expired_messages`: select the expired, not-yet-deleted rows
and run the loop body over each. -/
def cleanup_expired_messages (now : Time) (w : World) : World × List (List Char) :=
  (selectExpired now w.db).foldl (sweepMsgStep now) (w, [])

/-- The WHERE clause of the expired-media SELECT:
`expires_at IS NOT NULL AND expires_at < NOW()`. -/
def mediaExpired (now : Time) (r : MediaRow) : Bool :=
  match r.expiresAt with
  | some t => decide (t < now)
  | none => false

/-- The expired-media SELECT of `cleanup_expired_media`. -/
def selectExpiredMedia (now : Time) (db : Db) : List MediaRow :=
  db.media.filter (mediaExpired now)

/-- The loop body of `cleanup_expired_media`: delete the S3 object and its
thumbnail, then hard-delete the metadata row. -/
def sweepMediaStep (_now : Time) (wo : World × List (List Char)) (r : MediaRow) :
    World × List (List Char) :=
  let w1 := deleteMedia wo.1 r.s3Key
  let step2 : World × List (List Char) :=
    match r.thumbnailS3Key with
    | some tk => (deleteMedia w1 tk, wo.2 ++ [r.s3Key, tk])
    | none => (w1, wo.2 ++ [r.s3Key])
  let w2 := step2.1
  ({ w2 with db := { w2.db with media := w2.db.media.filter (fun x => ¬ x.id = r.id) } },
    step2.2)

/-- `cleanup_expired_media`. -/
def cleanup_expired_media (now : Time) (w : World) : World × List (List Char) :=
  (selectExpiredMedia now w.db).foldl (sweepMediaStep now) (w, [])

/-- The SELECT of `cleanup_viewed_view_once_messages`: view-once messages
not yet soft-deleted that already carry a View record. -/
def selectViewedViewOnce (db : Db) : List Msg :=
  db.messages.filter
    (fun m => m.viewOnce && m.deletedAt == none && db.messageViews.any (fun v => v.1 == m.id))

/-- `cleanup_viewed_view_once_messages`: same idempotent loop body as the
expired-messages pass, over viewed view-once rows. -/
def cleanup_viewed_view_once_messages (now : Time) (w : World) : World × List (List Char) :=
  (selectViewedViewOnce w.db).foldl (sweepMsgStep now) (w, [])

/-- Fault injection for the sweeper: a set flag makes the corresponding
pass's SELECT return `Err`, which the `?` operator propagates to the
pass's caller. -/
structure SweepFaults where
  expiredMessagesSelectFails : Bool
  expiredMediaSelectFails : Bool
deriving Repr, DecidableEq

/-- Both sweeper SELECTs succeed. -/
def noSweepFaults : SweepFaults := ⟨false, false⟩

/-- `cleanup_expired_messages` as seen by the loop in `start`: `Err` when
its SELECT fails. -/
def cleanupExpiredMessagesE (f : SweepFaults) (now : Time) (w : World) :
    Except String (World × List (List Char)) :=
  if f.expiredMessagesSelectFails then .error "Error cleaning up expired messages"
  else .ok (cleanup_expired_messages now w)

/-- `cleanup_expired_media` as seen by the loop in `start`. -/
def cleanupExpiredMediaE (f : SweepFaults) (now : Time) (w : World) :
    Except String (World × List (List Char)) :=
  if f.expiredMediaSelectFails then .error "Error cleaning up expired media"
  else .ok (cleanup_expired_media now w)

/-- One cycle of the loop in `ExpirationService::start`: run the
expired-messages pass, log its error if any and keep going; then run the
expired-media pass, log its error if any.  Returns the resulting world and
the log lines printed by `eprintln!`. -/
def runCycle (f : SweepFaults) (now : Time) (w : World) : World × List String :=
  let step1 : World × List String :=
    match cleanupExpiredMessagesE f now w with
    | .ok r => (r.1, [])
    | .error e => (w, [e])
  let step2 : World × List String :=
    match cleanupExpiredMediaE f now step1.1 with
    | .ok r => (r.1, [])
    | .error e => (step1.1, [e])
  (step2.1, step1.2 ++ step2.2)

/-! ## Chat-room creation (`chat.rs`) -/

/-- The body of `POST /chats` (`CreateChatRequest`). -/
structure CreateChatRequest where
  creatorId : UserId
  isGroup : Bool
  name : Option String
  memberIds : List UserId
deriving Repr, DecidableEq

/-- Does room `r` hold exactly the members `{a, b}` (as a set)? -/
def sameDirectPair (db : Db) (r : Room) (a b : UserId) : Bool :=
  let m := membersOf db r.id
  m.contains a && m.contains b && m.all (fun x => x == a || x == b)

/-- Modelled from the spec: `find_direct_chat` is a SQL function defined in
the database schema, which is not part of src/ (only its call site in
`create_chat` is).  Per the spec, direct-chat creation "first checks for an
existing room between the same pair and reuses it", so this returns the id
of an existing non-group chat room whose member set is exactly the pair. -/
def find_direct_chat (db : Db) (a b : UserId) : Option RoomId :=
  (db.chatRooms.find? (fun r => !r.isGroup && sameDirectPair db r a b)).map (·.id)

/-- The room-insertion tail of `create_chat`: insert the chat_rooms row
(name kept only for group chats), then one chat_members row per requested
member plus the creator. -/
def createNewRoom (db : Db) (req : CreateChatRequest) : Db × RoomId :=
  let rid := db.nextRoomId
  let room : Room := ⟨rid, req.isGroup, if req.isGroup then req.name else none⟩
  ({ db with
      chatRooms := db.chatRooms ++ [room],
      chatMembers := db.chatMembers ++ (req.memberIds ++ [req.creatorId]).map (fun m => (rid, m)),
      nextRoomId := rid + 1 },
    rid)

/-- `create_chat`: for a non-group request with exactly one other member,
first look for an existing direct chat for the pair and return its id
unchanged; otherwise insert a new room. -/
def create_chat (db : Db) (req : CreateChatRequest) : Db × RoomId :=
  if req.isGroup then createNewRoom db req
  else
    match req.memberIds with
    | [other] =>
      match find_direct_chat db req.creatorId other with
      | some rid => (db, rid)
      | none => createNewRoom db req
    | _ => createNewRoom db req

/-! ## Fixtures shared by concrete theorems -/

/-- An empty Redis state. -/
def redis0 : RedisState := ⟨[], []⟩

/-- A two-user database: users 1 and 2 in direct room 10; message 5 is a
view-once image from user 1, already saved by user 2. -/
def pairDb : Db :=
  ⟨[(1, "alice"), (2, "bob")],
   [⟨10, false, none⟩],
   [(10, 1), (10, 2)],
   [⟨5, 10, 1, "image", none, none, true, none, 0, none⟩],
   [], [], [(5, 2)], [], 6, 11⟩

/-- Both users of `pairDb` hold a registry entry. -/
def pairConns : Connections := [(1, 0), (2, 1)]

/-- The fault configuration where only the chat-members SELECT fails. -/
def membersQueryFault : Faults := ⟨false, false, true, false, false, false, false, false⟩

/-- Number of stored receipt rows for one (message, user) pair. -/
def receiptCount (l : List (MsgId × UserId)) (mid : MsgId) (uid : UserId) : Nat :=
  l.count (mid, uid)

/-- A world whose only message is view-once, already viewed by user 2, not
soft-deleted, and carrying no expiration timestamp. -/
def viewedWorld : World :=
  ⟨⟨[(1, "alice"), (2, "bob")],
    [⟨10, false, none⟩],
    [(10, 1), (10, 2)],
    [⟨5, 10, 1, "image", none, none, true, none, 0, none⟩],
    [], [(5, 2)], [], [], 6, 11⟩,
   []⟩

/-- Is this inbound event a send-message to the given room? -/
def isSendTo (room : RoomId) : ClientEvent → Bool
  | .sendMessage r _ _ _ _ _ => r == room
  | _ => false

/-! ## Helper lemmas -/

theorem connGet_eq_none_iff (c : Connections) (u : UserId) :
    connGet c u = none ↔ ∀ p ∈ c, p.1 ≠ u := by
  simp [connGet, List.find?_eq_none]

theorem connGet_append_self (c : Connections) (u : UserId) (x : Nat)
    (h : connGet c u = none) : connGet (c ++ [(u, x)]) u = some x := by
  induction c with
  | nil => simp [connGet]
  | cons p t ih =>
    rw [connGet_eq_none_iff] at h
    have hp : (p.1 == u) = false := by
      simp only [beq_eq_false_iff_ne]
      exact h p (by simp)
    have ht : connGet t u = none := by
      rw [connGet_eq_none_iff]
      intro q hq
      exact h q (by simp [hq])
    simp only [connGet, List.cons_append, List.find?, hp]
    exact ih ht

theorem entriesFor_append_self (c : Connections) (u : UserId) (x : Nat) :
    entriesFor (c ++ [(u, x)]) u = entriesFor c u + 1 := by
  simp [entriesFor, List.filter_append]

theorem entriesFor_eq_zero_iff (c : Connections) (u : UserId) :
    entriesFor c u = 0 ↔ connGet c u = none := by
  rw [connGet_eq_none_iff]
  simp only [entriesFor, List.length_eq_zero, List.filter_eq_nil_iff]
  constructor
  · intro h p hp
    simpa using h p hp
  · intro h p hp
    simp [h p hp]

/-! ## C4 — connection registry: at most one channel per user -/

/-- C4: `register` returns the existing fan-out channel unchanged when the
user already has one, creates a channel only when none exists, keeps
exactly one registry entry per user, and a second registration (a second
connection of the same user) gets the same channel with the registry
unchanged. -/
theorem register_single_channel (conns : Connections) (u : UserId) (fresh fresh2 : Nat) :
    (∀ ch, connGet conns u = some ch → register conns u fresh = (ch, conns)) ∧
    (connGet conns u = none → register conns u fresh = (fresh, conns ++ [(u, fresh)])) ∧
    (entriesFor conns u ≤ 1 → entriesFor (register conns u fresh).2 u = 1) ∧
    register (register conns u fresh).2 u fresh2 =
      ((register conns u fresh).1, (register conns u fresh).2) := by
  refine ⟨?_, ?_, ?_, ?_⟩
  · intro ch h
    simp [register, h]
  · intro h
    simp [register, h]
  · intro h
    cases hc : connGet conns u with
    | none =>
      have h0 : entriesFor conns u = 0 := (entriesFor_eq_zero_iff conns u).mpr hc
      simp [register, hc, entriesFor_append_self, h0]
    | some ch =>
      simp only [register, hc]
      have hne : entriesFor conns u ≠ 0 := by
        intro h0
        rw [(entriesFor_eq_zero_iff conns u).mp h0] at hc
        exact Option.noConfusion hc
      omega
  · cases hc : connGet conns u with
    | none =>
      have := connGet_append_self conns u fresh hc
      simp [register, hc, this]
    | some ch =>
      simp [register, hc]

/-- Witness for C4 at concrete registries: a user with an existing channel
keeps it, a fresh user gets a new single entry. -/
theorem register_single_channel_witness :
    register [(5, 7)] 5 9 = (7, [(5, 7)]) ∧
    register ([] : Connections) 5 9 = (9, [(5, 9)]) ∧
    entriesFor (register [(5, 7)] 5 9).2 5 = 1 :=
  ⟨(register_single_channel [(5, 7)] 5 9 9).1 7 (by decide),
   (register_single_channel [] 5 9 9).2.1 (by decide),
   (register_single_channel [(5, 7)] 5 9 9).2.2.1 (by decide)⟩

/-! ## C1 — view-once deletion ignores the save exemption -/

/-- C1 (code bug): user 2 has a Save record for view-once message 5
(`pairDb.savedMessages` contains `(5, 2)`), yet user 2's first
`mark_viewed` still soft-deletes the message and fans out
`message_expired` to both room members: the MarkViewed arm of
`handle_ws_message` never consults `saved_messages`, contradicting the
save-exemption rule (and the `save_message` endpoint's own
"prevents auto-delete" documentation). -/
theorem mark_viewed_deletes_despite_save :
    (5, 2) ∈ pairDb.savedMessages ∧
    handleWsMessage 42 noFaults (.markViewed 5) 2 pairDb redis0 pairConns =
      .ok ⟨{ pairDb with
              messageViews := [(5, 2)],
              messages := [⟨5, 10, 1, "image", none, none, true, none, 0, some 42⟩] },
           redis0,
           [(1, .messageViewed 5 2 42), (1, .messageExpired 5), (2, .messageExpired 5)]⟩ := by
  constructor
  · decide
  · decide

/-! ## C2 — typing-arm member query failure panics the receive loop -/

/-- C2 (code bug): a failed chat-member query during typing-start or
typing-stop handling hits the `.unwrap()` in those arms and panics,
which ends the receive task and tears the connection down — the
receive loop over `[typing_start]` crashes instead of continuing. -/
theorem typing_member_query_failure_panics :
    handleWsMessage 0 membersQueryFault (.typingStart 10) 1 pairDb redis0 pairConns =
      .panicked ∧
    handleWsMessage 0 membersQueryFault (.typingStop 10) 1 pairDb redis0 pairConns =
      .panicked ∧
    recvLoop 0 1 pairConns [(some (.typingStart 10), membersQueryFault)]
      ⟨pairDb, redis0⟩ [] =
      .crashed ⟨pairDb, redis0⟩ [] := by
  refine ⟨by decide, by decide, ?_⟩
  decide

/-! ## C6 — malformed frames: discarded, loop continues, but no error event -/

/-- C6 counterexample: a frame that fails to decode produces no outbound
event at all — in particular no `error` event reaches the sender, contrary
to the claim.  The loop result is `done` with state unchanged and an empty
output list. -/
theorem malformed_frame_sends_no_error_event :
    recvLoop 0 1 pairConns [(none, noFaults)] ⟨pairDb, redis0⟩ [] =
      .done ⟨pairDb, redis0⟩ [] := by
  decide

/-- C6 (amended): a malformed frame is discarded with no state change and
no outbound event of any kind, and the connection keeps processing the
remaining frames — running the loop equals running it on the well-formed
frames alone. -/
theorem malformed_frames_are_skipped (now : Time) (uid : UserId) (conns : Connections)
    (frames : List (Frame × Faults)) (st : LoopState) (acc : List (UserId × ServerEvent)) :
    recvLoop now uid conns frames st acc =
      recvLoop now uid conns (frames.filter (fun p => p.1.isSome)) st acc := by
  induction frames generalizing st acc with
  | nil => rfl
  | cons p rest ih =>
    obtain ⟨frame, f⟩ := p
    cases frame with
    | none => simpa [recvLoop] using ih st acc
    | some ev =>
      simp only [recvLoop, List.filter_cons, Option.isSome_some, if_true]
      cases handleWsMessage now f ev uid st.db st.redis conns with
      | ok r => exact ih ⟨r.db, r.redis⟩ (acc ++ r.out)
      | panicked => rfl

/-! ## C3 — duplicate Read/View receipts are no-ops -/

/-- C3: inserting the same Read or View record twice yields exactly one
stored row, and the second `mark_read` / `mark_viewed` call returns with
the database and Redis states unchanged and an empty output: no error, no
unread-counter change, no notification, no deletion. -/
theorem duplicate_receipt_noop (now : Time) (db : Db) (redis : RedisState)
    (conns : Connections) (mid : MsgId) (uid : UserId)
    (hr : (mid, uid) ∉ db.messageReads) (hv : (mid, uid) ∉ db.messageViews) :
    ∃ r1, handleWsMessage now noFaults (.markRead mid) uid db redis conns = .ok r1 ∧
      receiptCount r1.db.messageReads mid uid = 1 ∧
      handleWsMessage now noFaults (.markRead mid) uid r1.db r1.redis conns =
        .ok ⟨r1.db, r1.redis, []⟩ ∧
      ∃ r2, handleWsMessage now noFaults (.markViewed mid) uid r1.db r1.redis conns = .ok r2 ∧
        receiptCount r2.db.messageViews mid uid = 1 ∧
        handleWsMessage now noFaults (.markViewed mid) uid r2.db r2.redis conns =
          .ok ⟨r2.db, r2.redis, []⟩ := by
  have hcr : receiptCount (db.messageReads ++ [(mid, uid)]) mid uid = 1 := by
    have h0 : receiptCount db.messageReads mid uid = 0 :=
      List.count_eq_zero.mpr hr
    simp [receiptCount, List.count_append] at h0 ⊢
    simp [h0]
  -- first mark_read: the receipt is new, so it is inserted
  simp only [handleWsMessage, noFaults, Bool.false_eq_true, if_false, if_neg hr]
  set db1 : Db := { db with messageReads := db.messageReads ++ [(mid, uid)] } with hdb1
  have hmem1 : (mid, uid) ∈ db1.messageReads := by simp [hdb1]
  have hviews1 : db1.messageViews = db.messageViews := rfl
  -- the second mark_read hits the ON CONFLICT branch whatever r1 turned out to be
  cases hm : lookupMessage db1 mid with
  | none =>
    refine ⟨⟨db1, redis, []⟩, rfl, hcr, ?_, ?_⟩
    · simp [handleWsMessage, noFaults, hmem1]
    · -- mark_viewed on db1
      simp only [handleWsMessage, noFaults, Bool.false_eq_true, if_false,
        hviews1, if_neg hv]
      set db2 : Db := { db1 with messageViews := db.messageViews ++ [(mid, uid)] } with hdb2
      have hcv : receiptCount db2.messageViews mid uid = 1 := by
        have h0 : receiptCount db.messageViews mid uid = 0 :=
          List.count_eq_zero.mpr hv
        simp [receiptCount, List.count_append] at h0 ⊢
        simp [hdb2, receiptCount, h0]
      have hmem2 : (mid, uid) ∈ db2.messageViews := by simp [hdb2]
      have hm2 : lookupMessage db2 mid = none := hm
      rw [hm2]
      exact ⟨⟨db2, redis, []⟩, rfl, hcv, by simp [handleWsMessage, noFaults, hmem2]⟩
  | some m =>
    refine ⟨⟨db1, clearUnread redis uid m.chatRoomId,
      match connGet conns m.senderId with
      | some _ => [(m.senderId, ServerEvent.messageRead mid uid now)]
      | none => []⟩, rfl, hcr, ?_, ?_⟩
    · simp [handleWsMessage, noFaults, hmem1]
    · -- mark_viewed on db1 with the read-side redis state
      simp only [handleWsMessage, noFaults, Bool.false_eq_true, if_false,
        hviews1, if_neg hv]
      set rs1 := clearUnread redis uid m.chatRoomId
      set db2 : Db := { db1 with messageViews := db.messageViews ++ [(mid, uid)] } with hdb2
      have hcv : receiptCount db2.messageViews mid uid = 1 := by
        have h0 : receiptCount db.messageViews mid uid = 0 :=
          List.count_eq_zero.mpr hv
        simp [receiptCount, List.count_append] at h0 ⊢
        simp [hdb2, receiptCount, h0]
      have hmem2 : (mid, uid) ∈ db2.messageViews := by simp [hdb2]
      have hm2 : lookupMessage db2 mid = some m := hm
      rw [hm2]
      cases hvo : m.viewOnce with
      | false =>
        simp only [hvo, Bool.false_eq_true, if_false]
        exact ⟨_, rfl, hcv, by simp [handleWsMessage, noFaults, hmem2]⟩
      | true =>
        simp only [hvo, if_true]
        have hdel : (softDelete db2 mid now).messageViews = db2.messageViews := rfl
        refine ⟨_, rfl, ?_, ?_⟩
        · exact hcv
        · have hmem3 : (mid, uid) ∈ (softDelete db2 mid now).messageViews := hmem2
          simp [handleWsMessage, noFaults, hmem3]

/-- Witness for C3: user 2 marks message 5 of `pairDb` read and viewed;
each receipt is stored once and the duplicate calls are no-ops. -/
theorem duplicate_receipt_noop_witness :
    ∃ r1, handleWsMessage 7 noFaults (.markRead 5) 2 pairDb redis0 pairConns = .ok r1 ∧
      receiptCount r1.db.messageReads 5 2 = 1 ∧
      handleWsMessage 7 noFaults (.markRead 5) 2 r1.db r1.redis pairConns =
        .ok ⟨r1.db, r1.redis, []⟩ ∧
      ∃ r2, handleWsMessage 7 noFaults (.markViewed 5) 2 r1.db r1.redis pairConns = .ok r2 ∧
        receiptCount r2.db.messageViews 5 2 = 1 ∧
        handleWsMessage 7 noFaults (.markViewed 5) 2 r2.db r2.redis pairConns =
          .ok ⟨r2.db, r2.redis, []⟩ :=
  duplicate_receipt_noop 7 pairDb redis0 pairConns 5 2 (by decide) (by decide)

/-! ## C7 — idempotence of the expired-message sweep pass -/

/-- The loop body only ever changes the database through the soft delete;
the media branches touch the S3 store and the side-effect log alone. -/
theorem sweepMsgStep_db (now : Time) (wo : World × List (List Char)) (m : Msg) :
    (sweepMsgStep now wo m).1.db = softDelete wo.1.db m.id now := by
  rcases h1 : m.mediaUrl with _ | url
  · simp only [sweepMsgStep, h1]
  · rcases h2 : extract_s3_key url with _ | k <;> simp only [sweepMsgStep, h1, h2, deleteMedia]

/-- After folding the loop body over a selection covering every
expired-undeleted row, no expired-undeleted row remains. -/
theorem sweep_fold_no_expired (now : Time) :
    ∀ (sel : List Msg) (wo : World × List (List Char)),
      (∀ m' ∈ wo.1.db.messages, expiredUndeleted now m' = true → m'.id ∈ sel.map (·.id)) →
      ∀ m' ∈ (sel.foldl (sweepMsgStep now) wo).1.db.messages,
        expiredUndeleted now m' = false := by
  intro sel
  induction sel with
  | nil =>
    intro wo h m' hm'
    cases hx : expiredUndeleted now m' with
    | false => rfl
    | true => simpa using h m' hm' hx
  | cons m rest ih =>
    intro wo h m' hm'
    refine ih (sweepMsgStep now wo m) ?_ m' hm'
    intro m1 hm1 hexp
    rw [sweepMsgStep_db] at hm1
    simp only [softDelete, List.mem_map] at hm1
    obtain ⟨m0, hm0, hrep⟩ := hm1
    by_cases hid : m0.id = m.id
    · rw [if_pos hid] at hrep
      rw [← hrep] at hexp
      simp [expiredUndeleted] at hexp
    · rw [if_neg hid] at hrep
      subst hrep
      have := h m0 hm0 hexp
      simp only [List.map_cons, List.mem_cons] at this
      rcases this with h1 | h1
      · exact absurd h1 hid
      · exact h1

/-- C7: the expired-message sweep pass is idempotent — after one run no
expired, not-yet-deleted row is selected again, the second run returns the
identical end state (database and S3 store) with no further `delete_media`
side effect, and it reports no error. -/
theorem cleanup_expired_messages_idempotent (now : Time) (w : World) :
    selectExpired now (cleanup_expired_messages now w).1.db = [] ∧
    cleanup_expired_messages now (cleanup_expired_messages now w).1 =
      ((cleanup_expired_messages now w).1, []) ∧
    cleanupExpiredMessagesE noSweepFaults now (cleanup_expired_messages now w).1 =
      .ok ((cleanup_expired_messages now w).1, []) := by
  have hnone : ∀ m' ∈ (cleanup_expired_messages now w).1.db.messages,
      expiredUndeleted now m' = false := by
    apply sweep_fold_no_expired
    intro m' hm' hexp
    exact List.mem_map_of_mem _ (List.mem_filter.mpr ⟨hm', hexp⟩)
  have hempty : selectExpired now (cleanup_expired_messages now w).1.db = [] := by
    refine List.filter_eq_nil_iff.mpr ?_
    intro m hm
    simp [hnone m hm]
  have hsecond : cleanup_expired_messages now (cleanup_expired_messages now w).1 =
      ((cleanup_expired_messages now w).1, []) := by
    conv_lhs => rw [cleanup_expired_messages, hempty]
    rfl
  exact ⟨hempty, hsecond, by simp [cleanupExpiredMessagesE, noSweepFaults, hsecond]⟩

/-! ## C10 — S3-key extraction gates media deletion -/

theorem findSplit_eq_some (sep : List Char) :
    ∀ (xs pre post : List Char), findSplit sep xs = some (pre, post) →
      xs = pre ++ sep ++ post := by
  intro xs
  induction xs with
  | nil => intro pre post h; simp [findSplit] at h
  | cons c rest ih =>
    intro pre post h
    by_cases hp : sep.isPrefixOf (c :: rest)
    · rw [findSplit, if_pos hp] at h
      obtain ⟨t, ht⟩ := List.isPrefixOf_iff_prefix.mp hp
      injection h with h1
      injection h1 with hpre hpost
      subst hpre
      rw [← ht, List.drop_left] at hpost
      subst hpost
      simpa using ht.symm
    · rw [findSplit, if_neg hp] at h
      cases hr : findSplit sep rest with
      | none => rw [hr] at h; exact absurd h (by simp)
      | some pq =>
        obtain ⟨p, q⟩ := pq
        rw [hr] at h
        injection h with h1
        injection h1 with hpre hpost
        subst hpre
        subst hpost
        have := ih p q hr
        simp [this]

theorem findSplit_isSome_of_infix (sep : List Char) (hne : sep ≠ []) :
    ∀ xs : List Char, sep <:+: xs → (findSplit sep xs).isSome := by
  intro xs
  induction xs with
  | nil =>
    intro h
    exact absurd (List.eq_nil_of_infix_nil h) hne
  | cons c rest ih =>
    intro h
    by_cases hp : sep.isPrefixOf (c :: rest)
    · rw [findSplit, if_pos hp]
      rfl
    · rw [findSplit, if_neg hp]
      have hrest : sep <:+: rest := by
        rcases List.infix_cons_iff.mp h with hpre | hrest
        · exact absurd (List.isPrefixOf_iff_prefix.mpr hpre) hp
        · exact hrest
      cases hr : findSplit sep rest with
      | none => rw [hr] at ih; simpa using ih hrest
      | some pq => simp

/-- C10: in the sweeper loop body, the message row is always soft-deleted,
while the backing media object is deleted exactly when `extract_s3_key`
finds the `".s3.amazonaws.com/"` pattern in the URL: the extraction
succeeds iff the URL contains that substring, the extracted key is the
text after the (first) occurrence — up to the next occurrence if any —
and for every other URL the extraction is `none` and media deletion is
silently skipped. -/
theorem extract_s3_key_gates_media_deletion (now : Time)
    (wo : World × List (List Char)) (m : Msg) (url : List Char)
    (hurl : m.mediaUrl = some url) :
    ((extract_s3_key url).isSome ↔ sepChars <:+: url) ∧
    (∀ k, extract_s3_key url = some k →
      ∃ pre post, url = pre ++ sepChars ++ post ∧
        (k = post ∨ ∃ tail, post = k ++ sepChars ++ tail)) ∧
    (sweepMsgStep now wo m).1.db = softDelete wo.1.db m.id now ∧
    (sweepMsgStep now wo m).2 = wo.2 ++ (extract_s3_key url).toList ∧
    (extract_s3_key url = none → (sweepMsgStep now wo m).1.s3 = wo.1.s3) := by
  have hne : sepChars ≠ [] := by decide
  refine ⟨?_, ?_, sweepMsgStep_db now wo m, ?_, ?_⟩
  · constructor
    · intro hs
      cases hfs : findSplit sepChars url with
      | none => rw [extract_s3_key, hfs] at hs; simp at hs
      | some pq =>
        obtain ⟨pre, post⟩ := pq
        rw [findSplit_eq_some sepChars url pre post hfs]
        exact ⟨pre, post, rfl⟩
    · intro hinf
      have := findSplit_isSome_of_infix sepChars hne url hinf
      cases hfs : findSplit sepChars url with
      | none => rw [hfs] at this; simp at this
      | some pq =>
        obtain ⟨pre, post⟩ := pq
        rcases h2 : findSplit sepChars post with _ | pq2 <;>
          simp [extract_s3_key, hfs, h2]
  · intro k hk
    cases hfs : findSplit sepChars url with
    | none => rw [extract_s3_key, hfs] at hk; exact absurd hk (by simp)
    | some pq =>
      obtain ⟨pre, post⟩ := pq
      refine ⟨pre, post, findSplit_eq_some sepChars url pre post hfs, ?_⟩
      cases h2 : findSplit sepChars post with
      | none =>
        simp only [extract_s3_key, hfs, h2] at hk
        injection hk with hk
        exact Or.inl hk.symm
      | some pq2 =>
        obtain ⟨k2, tail⟩ := pq2
        simp only [extract_s3_key, hfs, h2] at hk
        injection hk with hk
        rw [hk] at h2
        exact Or.inr ⟨tail, findSplit_eq_some sepChars post k tail h2⟩
  · rcases hx : extract_s3_key url with _ | k <;>
      simp [sweepMsgStep, hurl, hx]
  · intro hnonekey
    simp [sweepMsgStep, hurl, hnonekey]

/-- Witness for C10 at concrete URLs: an S3-style URL yields the key after
the pattern, a foreign URL yields `none` and leaves the object store
untouched while the row is still soft-deleted. -/
theorem extract_s3_key_gates_media_deletion_witness :
    ((extract_s3_key (String.toList "https://b.s3.amazonaws.com/img/1.jpg")).isSome ↔
      sepChars <:+: String.toList "https://b.s3.amazonaws.com/img/1.jpg") ∧
    (extract_s3_key (String.toList "https://example.com/img/1.jpg") = none →
      (sweepMsgStep 3 (⟨pairDb, [String.toList "img/1.jpg"]⟩, [])
        ⟨5, 10, 1, "image", none, some (String.toList "https://example.com/img/1.jpg"),
          true, some 1, 0, none⟩).1.s3 = [String.toList "img/1.jpg"]) :=
  ⟨(extract_s3_key_gates_media_deletion 3 (⟨pairDb, []⟩, [])
      ⟨5, 10, 1, "image", none, some (String.toList "https://b.s3.amazonaws.com/img/1.jpg"),
        true, some 1, 0, none⟩
      (String.toList "https://b.s3.amazonaws.com/img/1.jpg") rfl).1,
   (extract_s3_key_gates_media_deletion 3 (⟨pairDb, [String.toList "img/1.jpg"]⟩, [])
      ⟨5, 10, 1, "image", none, some (String.toList "https://example.com/img/1.jpg"),
        true, some 1, 0, none⟩
      (String.toList "https://example.com/img/1.jpg") rfl).2.2.2.2⟩

/-! ## C8 — the sweeper cycle runs two passes, not three -/

/-- C8 counterexample: a sweeper cycle over a world holding a viewed,
not-yet-deleted view-once message leaves it untouched — the loop in
`ExpirationService::start` never invokes the view-once recovery pass,
although that pass exists and would soft-delete the row. -/
theorem sweeper_cycle_skips_view_once_recovery :
    runCycle noSweepFaults 100 viewedWorld = (viewedWorld, []) ∧
    selectViewedViewOnce viewedWorld.db =
      [⟨5, 10, 1, "image", none, none, true, none, 0, none⟩] ∧
    (cleanup_viewed_view_once_messages 100 viewedWorld).1.db.messages =
      [⟨5, 10, 1, "image", none, none, true, none, 0, some 100⟩] := by
  refine ⟨by decide, by decide, by decide⟩

/-- The media loop body removes exactly the processed row from the
`media` table; the S3 deletions touch only the object store. -/
theorem sweepMediaStep_media (now : Time) (wo : World × List (List Char)) (r : MediaRow) :
    (sweepMediaStep now wo r).1.db.media =
      wo.1.db.media.filter (fun x => ¬ x.id = r.id) := by
  rcases h : r.thumbnailS3Key with _ | tk <;> simp [sweepMediaStep, h, deleteMedia]

/-- After folding the media loop body over a selection covering every
expired media row, no expired media row remains. -/
theorem media_fold_no_expired (now : Time) :
    ∀ (sel : List MediaRow) (wo : World × List (List Char)),
      (∀ r ∈ wo.1.db.media, mediaExpired now r = true → r.id ∈ sel.map (·.id)) →
      ∀ r ∈ (sel.foldl (sweepMediaStep now) wo).1.db.media,
        mediaExpired now r = false := by
  intro sel
  induction sel with
  | nil =>
    intro wo h r hr
    cases hx : mediaExpired now r with
    | false => rfl
    | true => simpa using h r hr hx
  | cons q rest ih =>
    intro wo h r hr
    refine ih (sweepMediaStep now wo q) ?_ r hr
    intro x hx hexp
    rw [sweepMediaStep_media] at hx
    have hmem := List.mem_filter.mp hx
    have hid : ¬ x.id = q.id := by simpa using hmem.2
    have := h x hmem.1 hexp
    simp only [List.map_cons, List.mem_cons] at this
    rcases this with h1 | h1
    · exact absurd h1 hid
    · exact h1

/-- C8 (amended): each sweeper cycle performs exactly the two passes
`cleanup_expired_messages` and `cleanup_expired_media` — after a no-fault
cycle no expired media row survives; a failing first pass is logged and
the second pass still runs; with both SELECTs failing the cycle completes
with the world unchanged and both errors logged; and a cycle over a world
with nothing expired is the identity, whatever viewed view-once rows are
pending (no third pass exists in the loop). -/
theorem sweeper_cycle_two_passes (now : Time) (w : World) :
    runCycle noSweepFaults now w =
      ((cleanup_expired_media now (cleanup_expired_messages now w).1).1, []) ∧
    (∀ r ∈ (runCycle noSweepFaults now w).1.db.media, mediaExpired now r = false) ∧
    runCycle ⟨true, false⟩ now w =
      ((cleanup_expired_media now w).1, ["Error cleaning up expired messages"]) ∧
    runCycle ⟨true, true⟩ now w =
      (w, ["Error cleaning up expired messages", "Error cleaning up expired media"]) ∧
    (selectExpired now w.db = [] → selectExpiredMedia now w.db = [] →
      runCycle noSweepFaults now w = (w, [])) := by
  refine ⟨?_, ?_, ?_, ?_, ?_⟩
  · simp [runCycle, cleanupExpiredMessagesE, cleanupExpiredMediaE, noSweepFaults]
  · intro r hr
    have hcycle : (runCycle noSweepFaults now w).1 =
        (cleanup_expired_media now (cleanup_expired_messages now w).1).1 := by
      simp [runCycle, cleanupExpiredMessagesE, cleanupExpiredMediaE, noSweepFaults]
    rw [hcycle] at hr
    refine media_fold_no_expired now _ _ ?_ r hr
    intro x hx hexp
    exact List.mem_map_of_mem _ (List.mem_filter.mpr ⟨hx, hexp⟩)
  · simp [runCycle, cleanupExpiredMessagesE, cleanupExpiredMediaE]
  · simp [runCycle, cleanupExpiredMessagesE, cleanupExpiredMediaE]
  · intro h1 h2
    have e1 : cleanup_expired_messages now w = (w, []) := by
      rw [cleanup_expired_messages, h1]
      rfl
    have e2 : cleanup_expired_media now w = (w, []) := by
      rw [cleanup_expired_media, h2]
      rfl
    simp [runCycle, cleanupExpiredMessagesE, cleanupExpiredMediaE, noSweepFaults, e1, e2]

/-- Witness for C8 (amended) on `viewedWorld`: nothing is expired there,
so the no-fault cycle is the identity even though a viewed view-once row
is pending. -/
theorem sweeper_cycle_two_passes_witness :
    runCycle noSweepFaults 100 viewedWorld = (viewedWorld, []) :=
  (sweeper_cycle_two_passes 100 viewedWorld).2.2.2.2 (by decide) (by decide)

/-! ## C9 — direct-chat creation is idempotent per unordered pair -/

theorem find?_append_of_none {α : Type} (l1 l2 : List α) (p : α → Bool)
    (h : l1.find? p = none) : (l1 ++ l2).find? p = l2.find? p := by
  induction l1 with
  | nil => rfl
  | cons x t ih =>
    rw [List.find?_cons] at h
    cases hx : p x with
    | true => rw [hx] at h; exact absurd h (by simp)
    | false =>
      rw [hx] at h
      rw [List.cons_append, List.find?_cons, hx]
      exact ih h

theorem find?_congr {α : Type} (l : List α) (p q : α → Bool)
    (h : ∀ x ∈ l, p x = q x) : l.find? p = l.find? q := by
  induction l with
  | nil => rfl
  | cons x t ih =>
    rw [List.find?_cons, List.find?_cons, h x (by simp)]
    cases q x with
    | true => rfl
    | false => exact ih (fun y hy => h y (by simp [hy]))

theorem sameDirectPair_symm (db : Db) (r : Room) (a b : UserId) :
    sameDirectPair db r a b = sameDirectPair db r b a := by
  rw [Bool.eq_iff_iff]
  simp only [sameDirectPair, Bool.and_eq_true, List.all_eq_true, Bool.or_eq_true]
  constructor <;> rintro ⟨⟨h1, h2⟩, h3⟩ <;> exact ⟨⟨h2, h1⟩, fun x hx => (h3 x hx).symm⟩

/-- `membersOf` ignores membership rows of other rooms appended to the
table. -/
theorem membersOf_append_other (db : Db) (extra : List (RoomId × UserId)) (room : RoomId)
    (h : ∀ p ∈ extra, p.1 ≠ room) (db' : Db) (hm : db'.chatMembers = db.chatMembers ++ extra) :
    membersOf db' room = membersOf db room := by
  unfold membersOf
  rw [hm, List.filter_append]
  have : extra.filter (fun p => p.1 == room) = [] := by
    refine List.filter_eq_nil_iff.mpr ?_
    intro p hp
    simp [h p hp]
  rw [this, List.append_nil]

/-- C9: creating a direct chat for the unordered pair `{a, b}` twice —
in either orientation the second time — returns the same room id both
times and leaves the database unchanged on the second call, so no second
room for the pair ever appears.  The freshness hypotheses say the id
generator does not collide with existing rows. -/
theorem direct_chat_creation_idempotent (db : Db) (a b : UserId)
    (hfreshR : ∀ r ∈ db.chatRooms, r.id ≠ db.nextRoomId)
    (hfreshM : ∀ p ∈ db.chatMembers, p.1 ≠ db.nextRoomId) :
    create_chat (create_chat db ⟨a, false, none, [b]⟩).1 ⟨a, false, none, [b]⟩ =
      create_chat db ⟨a, false, none, [b]⟩ ∧
    create_chat (create_chat db ⟨a, false, none, [b]⟩).1 ⟨b, false, none, [a]⟩ =
      create_chat db ⟨a, false, none, [b]⟩ := by
  have hsympred : ∀ (d : Db) (x y : UserId),
      find_direct_chat d x y = find_direct_chat d y x := by
    intro d x y
    unfold find_direct_chat
    rw [find?_congr d.chatRooms _ _
      (fun r _ => by rw [sameDirectPair_symm])]
  cases hf : find_direct_chat db a b with
  | some rid =>
    have hba : find_direct_chat db b a = some rid := by rw [hsympred db b a, hf]
    constructor <;> simp [create_chat, hf, hba]
  | none =>
    -- the first call inserts room `rid` with members [b, a]
    set rid := db.nextRoomId with hrid
    have hstep : create_chat db ⟨a, false, none, [b]⟩ =
        ({ db with
            chatRooms := db.chatRooms ++ [⟨rid, false, none⟩],
            chatMembers := db.chatMembers ++ [(rid, b), (rid, a)],
            nextRoomId := rid + 1 }, rid) := by
      simp [create_chat, hf, createNewRoom]
    set db1 : Db :=
      { db with
          chatRooms := db.chatRooms ++ [⟨rid, false, none⟩],
          chatMembers := db.chatMembers ++ [(rid, b), (rid, a)],
          nextRoomId := rid + 1 } with hdb1
    -- members of the new room
    have hmembers : membersOf db1 rid = [b, a] := by
      unfold membersOf
      have : db1.chatMembers = db.chatMembers ++ [(rid, b), (rid, a)] := rfl
      rw [this, List.filter_append]
      have hold : db.chatMembers.filter (fun p => p.1 == rid) = [] := by
        refine List.filter_eq_nil_iff.mpr ?_
        intro p hp
        simp [hfreshM p hp]
      rw [hold]
      simp
    -- old rooms still fail the predicate inside db1
    have hfind0 : db.chatRooms.find? (fun r => !r.isGroup && sameDirectPair db r a b) =
        none := by
      have h0 := hf
      unfold find_direct_chat at h0
      exact Option.map_eq_none'.mp h0
    have hold_pred : ∀ r ∈ db.chatRooms,
        (!r.isGroup && sameDirectPair db1 r a b) = false := by
      intro r hr
      have hmem : membersOf db1 r.id = membersOf db r.id := by
        refine membersOf_append_other db [(rid, b), (rid, a)] r.id ?_ db1 rfl
        intro p hp
        have hp1 : p.1 = rid := by
          simp only [List.mem_cons, List.not_mem_nil, or_false] at hp
          rcases hp with h | h <;> simp [h]
        rw [hp1]
        exact fun hcontra => hfreshR r hr hcontra.symm
      have hsame : sameDirectPair db1 r a b = sameDirectPair db r a b := by
        unfold sameDirectPair
        rw [hmem]
      rw [hsame]
      exact Bool.eq_false_iff.mpr (List.find?_eq_none.mp hfind0 r hr)
    -- the new room satisfies the predicate
    have hP1new : sameDirectPair db1 ⟨rid, false, none⟩ a b = true := by
      simp [sameDirectPair, hmembers]
    have hfind1 : find_direct_chat db1 a b = some rid := by
      unfold find_direct_chat
      have hrooms : db1.chatRooms = db.chatRooms ++ [⟨rid, false, none⟩] := rfl
      rw [hrooms, find?_append_of_none _ _ _ (List.find?_eq_none.mpr (by
        intro r hr
        simp [hold_pred r hr]))]
      simp [List.find?_cons, hP1new]
    have hfind2 : find_direct_chat db1 b a = some rid := by
      rw [hsympred db1 b a]
      exact hfind1
    rw [hstep]
    constructor <;> simp [create_chat, hfind1, hfind2]

/-- Witness for C9: starting from a two-user database with no rooms,
creating the direct chat for the pair twice (second time from the other
side) returns room 0 both times and creates no second room. -/
theorem direct_chat_creation_idempotent_witness :
    create_chat (create_chat ⟨[(1, "alice"), (2, "bob")], [], [], [], [], [], [], [], 0, 0⟩
        ⟨1, false, none, [2]⟩).1 ⟨2, false, none, [1]⟩ =
      create_chat ⟨[(1, "alice"), (2, "bob")], [], [], [], [], [], [], [], 0, 0⟩
        ⟨1, false, none, [2]⟩ :=
  (direct_chat_creation_idempotent
    ⟨[(1, "alice"), (2, "bob")], [], [], [], [], [], [], [], 0, 0⟩ 1 2
    (by simp) (by simp)).2

/-! ## C5 — unread accounting for offline members -/

theorem find?_append_of_some {α : Type} (l1 l2 : List α) (p : α → Bool) (x : α)
    (h : l1.find? p = some x) : (l1 ++ l2).find? p = some x := by
  induction l1 with
  | nil => simp [List.find?] at h
  | cons y t ih =>
    rw [List.find?_cons] at h
    cases hy : p y with
    | true =>
      rw [hy] at h
      rw [List.cons_append, List.find?_cons, hy]
      exact h
    | false =>
      rw [hy] at h
      rw [List.cons_append, List.find?_cons, hy]
      exact ih h

/-- The value part of the unread map is incremented for the given key and
untouched elsewhere; keys are never changed by the INCR map. -/
theorem find?_map_incr (l : List ((UserId × RoomId) × Nat)) (key : UserId × RoomId) :
    (l.map (fun p => if p.1 = key then (p.1, p.2 + 1) else p)).find?
        (fun p => p.1 == key) =
      (l.find? (fun p => p.1 == key)).map (fun p => (p.1, p.2 + 1)) := by
  induction l with
  | nil => rfl
  | cons p t ih =>
    by_cases hp : p.1 = key
    · simp [List.find?_cons, hp]
    · have hb : (p.1 == key) = false := by simpa using hp
      simp only [List.map_cons, if_neg hp, List.find?_cons, hb]
      exact ih

/-- The INCR map leaves entries of other keys alone, including the one
`find?` returns. -/
theorem find?_map_incr_ne (l : List ((UserId × RoomId) × Nat)) (key key' : UserId × RoomId)
    (h : key ≠ key') :
    (l.map (fun p => if p.1 = key then (p.1, p.2 + 1) else p)).find?
        (fun p => p.1 == key') =
      l.find? (fun p => p.1 == key') := by
  induction l with
  | nil => rfl
  | cons p t ih =>
    by_cases hp : p.1 = key
    · have hb : (p.1 == key') = false := by
        simp only [beq_eq_false_iff_ne, ne_eq]
        rw [hp]
        exact h
      simp only [List.map_cons, if_pos hp, List.find?_cons, hb]
      exact ih
    · by_cases hq : p.1 = key'
      · have hif : (if p.1 = key then (p.1, p.2 + 1) else p) = p := if_neg hp
        have hb : (p.1 == key') = true := by simpa using hq
        simp [List.map_cons, hif, List.find?_cons, hb]
      · have hif : (if p.1 = key then (p.1, p.2 + 1) else p) = p := if_neg hp
        have hb : (p.1 == key') = false := by simpa using hq
        simp only [List.map_cons, hif, List.find?_cons, hb]
        exact ih

/-- Effect of `increment_unread` on `get_unread_count`: plus one on its
own (user, room) key, no change on any other key. -/
theorem getUnread_incrementUnread (r : RedisState) (u : UserId) (room : RoomId)
    (v : UserId) (room' : RoomId) :
    getUnread (incrementUnread r u room) v room' =
      (if (u, room) = (v, room') then getUnread r v room' + 1
       else getUnread r v room') := by
  by_cases hkey : ((u, room) : UserId × RoomId) = (v, room')
  · rw [if_pos hkey]
    unfold incrementUnread getUnread
    by_cases hs : (r.unread.find? (fun p => p.1 == (u, room))).isSome
    · rw [if_pos hs]
      simp only
      rw [← hkey, find?_map_incr]
      cases hf : r.unread.find? (fun p => p.1 == (u, room)) with
      | none => rw [hf] at hs; simp at hs
      | some p => simp
    · rw [if_neg hs]
      simp only
      rw [← hkey]
      cases hf : r.unread.find? (fun p => p.1 == (u, room)) with
      | none =>
        rw [find?_append_of_none _ _ _ hf]
        simp [List.find?_cons]
      | some p => rw [hf] at hs; simp at hs
  · rw [if_neg hkey]
    unfold incrementUnread getUnread
    by_cases hs : (r.unread.find? (fun p => p.1 == (u, room))).isSome
    · rw [if_pos hs]
      simp only
      rw [find?_map_incr_ne _ _ _ hkey]
    · rw [if_neg hs]
      simp only
      have hb : (((u, room) : UserId × RoomId) == (v, room')) = false :=
        beq_eq_false_iff_ne.mpr hkey
      cases hf : r.unread.find? (fun p => p.1 == (v, room')) with
      | none =>
        rw [find?_append_of_none _ _ _ hf]
        simp [List.find?_cons, hb]
      | some p =>
        rw [find?_append_of_some _ _ _ _ hf]

/-- `clear_unread` (a `DEL`) drops the counter to zero. -/
theorem getUnread_clearUnread_self (r : RedisState) (u : UserId) (room : RoomId) :
    getUnread (clearUnread r u room) u room = 0 := by
  unfold getUnread clearUnread
  simp only
  have : (r.unread.filter (fun p => ¬ p.1 = (u, room))).find?
      (fun p => p.1 == (u, room)) = none := by
    refine List.find?_eq_none.mpr ?_
    intro p hp
    have := (List.mem_filter.mp hp).2
    simpa using this
  rw [this]

/-- The fan-out loop of SendMessage: an offline member appearing `k` times
in the member list gets its unread counter for the room incremented `k`
times and receives no event; every emitted event targets a connected
user. -/
theorem fanoutOrUnread_effect (conns : Connections) (members : List UserId)
    (room : RoomId) (ev : ServerEvent) (m : UserId) (hoff : connGet conns m = none) :
    ∀ (redis : RedisState) (acc : List (UserId × ServerEvent)),
      getUnread (members.foldl
          (fun acc2 x =>
            match connGet conns x with
            | some _ => (acc2.1, acc2.2 ++ [(x, ev)])
            | none => (incrementUnread acc2.1 x room, acc2.2))
          (redis, acc)).1 m room = getUnread redis m room + members.count m ∧
      ∀ e ∈ (members.foldl
          (fun acc2 x =>
            match connGet conns x with
            | some _ => (acc2.1, acc2.2 ++ [(x, ev)])
            | none => (incrementUnread acc2.1 x room, acc2.2))
          (redis, acc)).2, e ∈ acc ∨ connGet conns e.1 ≠ none := by
  induction members with
  | nil =>
    intro redis acc
    exact ⟨by simp, fun e he => Or.inl he⟩
  | cons x rest ih =>
    intro redis acc
    cases hx : connGet conns x with
    | some ch =>
      have hxm : (x == m) = false := by
        refine beq_eq_false_iff_ne.mpr ?_
        intro hxeq
        rw [hxeq, hoff] at hx
        exact Option.noConfusion hx
      obtain ⟨ih1, ih2⟩ := ih redis (acc ++ [(x, ev)])
      refine ⟨?_, ?_⟩
      · simp only [List.foldl_cons, hx]
        rw [ih1, List.count_cons, hxm]
        simp
      · intro e he
        simp only [List.foldl_cons, hx] at he
        rcases ih2 e he with hin | hconn
        · rcases List.mem_append.mp hin with h1 | h1
          · exact Or.inl h1
          · simp only [List.mem_singleton] at h1
            rw [h1]
            exact Or.inr (by simp [hx])
        · exact Or.inr hconn
    | none =>
      obtain ⟨ih1, ih2⟩ := ih (incrementUnread redis x room) acc
      refine ⟨?_, ?_⟩
      · simp only [List.foldl_cons, hx]
        rw [ih1, getUnread_incrementUnread]
        by_cases hxm : x = m
        · rw [if_pos (by rw [hxm]), List.count_cons]
          simp [hxm]
          omega
        · rw [if_neg (by simpa using hxm), List.count_cons]
          have : (x == m) = false := beq_eq_false_iff_ne.mpr hxm
          simp [this]
      · intro e he
        simp only [List.foldl_cons, hx] at he
        exact ih2 e he

theorem lookupUser_ext (db1 db2 : Db) (u : UserId) (h : db1.users = db2.users) :
    lookupUser db1 u = lookupUser db2 u := by
  unfold lookupUser
  rw [h]

theorem membersOf_ext (db1 db2 : Db) (room : RoomId) (h : db1.chatMembers = db2.chatMembers) :
    membersOf db1 room = membersOf db2 room := by
  unfold membersOf
  rw [h]

/-- One SendMessage event: the users and chat-member tables are untouched,
an offline member's unread counter for the room grows by its multiplicity
in the member list, and every emitted event targets a connected user. -/
theorem sendMessage_step (now : Time) (sender : UserId) (conns : Connections)
    (db : Db) (redis : RedisState) (room : RoomId) (c : Option String) (mt : String)
    (mu : Option (List Char)) (vo : Bool) (eis : Option Nat)
    (m : UserId) (hoff : connGet conns m = none)
    (huser : (lookupUser db sender).isSome) :
    ∃ r : HandlerResult,
      handleWsMessage now noFaults (.sendMessage room c mt mu vo eis) sender db redis conns =
        .ok r ∧
      r.db.users = db.users ∧ r.db.chatMembers = db.chatMembers ∧
      getUnread r.redis m room = getUnread redis m room + (membersOf db room).count m ∧
      ∀ e ∈ r.out, connGet conns e.1 ≠ none := by
  obtain ⟨name, hname⟩ := Option.isSome_iff_exists.mp huser
  set db1 : Db :=
    { db with
        messages := db.messages ++
          [⟨db.nextMessageId, room, sender, mt, c, mu, vo, eis.map (fun s => now + s), now, none⟩],
        nextMessageId := db.nextMessageId + 1 } with hdb1
  have hname1 : lookupUser db1 sender = some name := by
    rw [lookupUser_ext db1 db sender rfl]
    exact hname
  have hmembers1 : membersOf db1 room = membersOf db room := rfl
  obtain ⟨h1, h2⟩ := fanoutOrUnread_effect conns (membersOf db room) room
    (ServerEvent.newMessage db.nextMessageId room sender name mt c mu vo now)
    m hoff redis []
  refine ⟨⟨db1,
      (fanoutOrUnread conns redis (membersOf db room)
        room (ServerEvent.newMessage db.nextMessageId room sender name mt c mu vo now)).1,
      (fanoutOrUnread conns redis (membersOf db room)
        room (ServerEvent.newMessage db.nextMessageId room sender name mt c mu vo now)).2⟩,
    ?_, rfl, rfl, ?_, ?_⟩
  · simp only [handleWsMessage, noFaults, Bool.false_eq_true, if_false, hname1,
      hmembers1, fanoutOrUnread]
  · exact h1
  · intro e he
    rcases h2 e he with hin | hconn
    · exact absurd hin (List.not_mem_nil e)
    · exact hconn

/-- Processing a run of send-message events to one room while member `m`
has no registry entry: the loop completes, leaves the users and member
tables unchanged, adds exactly one unread increment per message (the
member occurs once in the room), and hands `m` no event copy. -/
theorem sendLoop_effect (now : Time) (sender : UserId) (conns : Connections)
    (room : RoomId) (m : UserId) (hoff : connGet conns m = none) :
    ∀ (events : List ClientEvent) (db : Db) (redis : RedisState)
      (acc : List (UserId × ServerEvent)),
      (∀ e ∈ events, isSendTo room e = true) →
      (lookupUser db sender).isSome →
      (membersOf db room).count m = 1 →
      ∃ db' redis' out',
        recvLoop now sender conns (events.map (fun e => (some e, noFaults)))
          ⟨db, redis⟩ acc = .done ⟨db', redis'⟩ out' ∧
        db'.users = db.users ∧ db'.chatMembers = db.chatMembers ∧
        getUnread redis' m room = getUnread redis m room + events.length ∧
        ∀ e ∈ out', e ∈ acc ∨ connGet conns e.1 ≠ none := by
  intro events
  induction events with
  | nil =>
    intro db redis acc hsend huser hcount
    exact ⟨db, redis, acc, rfl, rfl, rfl, by simp, fun e he => Or.inl he⟩
  | cons ev rest ih =>
    intro db redis acc hsend huser hcount
    have hev := hsend ev (by simp)
    cases ev with
    | sendMessage r c mt mu vo eis =>
      have hr : r = room := by simpa [isSendTo] using hev
      subst hr
      obtain ⟨rstep, hok, hu, hm, hun, hout⟩ :=
        sendMessage_step now sender conns db redis r c mt mu vo eis m hoff huser
      have huser' : (lookupUser rstep.db sender).isSome := by
        rw [lookupUser_ext rstep.db db sender hu]
        exact huser
      have hcount' : (membersOf rstep.db r).count m = 1 := by
        rw [membersOf_ext rstep.db db r hm]
        exact hcount
      obtain ⟨db', redis', out', hloop, hu', hm', hun', hout'⟩ :=
        ih rstep.db rstep.redis (acc ++ rstep.out)
          (fun e he => hsend e (by simp [he])) huser' hcount'
      refine ⟨db', redis', out', ?_, ?_, ?_, ?_, ?_⟩
      · simp only [List.map_cons, recvLoop, hok]
        exact hloop
      · rw [hu', hu]
      · rw [hm', hm]
      · rw [hun', hun, hcount]
        simp only [List.length_cons]
        omega
      · intro e he
        rcases hout' e he with hin | hconn
        · rcases List.mem_append.mp hin with h1 | h1
          · exact Or.inl h1
          · exact Or.inr (hout e h1)
        · exact Or.inr hconn
    | typingStart r => simp [isSendTo] at hev
    | typingStop r => simp [isSendTo] at hev
    | markRead mid => simp [isSendTo] at hev
    | markViewed mid => simp [isSendTo] at hev

/-- C5: processing `N` send-message events for a room through the receive
loop while member `m` (present exactly once in the room) has no registry
entry increments `m`'s unread counter for that room by exactly `N` and
delivers no event copy to `m`; a subsequent first-time `mark_read` by `m`
on any message of that room resets the counter to 0. -/
theorem unread_accounting (now : Time) (sender m : UserId) (room : RoomId)
    (conns conns2 : Connections) (db : Db) (redis : RedisState)
    (events : List ClientEvent)
    (hsend : ∀ e ∈ events, isSendTo room e = true)
    (huser : (lookupUser db sender).isSome)
    (hcount : (membersOf db room).count m = 1)
    (hoff : connGet conns m = none) :
    ∃ db' redis' out',
      recvLoop now sender conns (events.map (fun e => (some e, noFaults)))
        ⟨db, redis⟩ [] = .done ⟨db', redis'⟩ out' ∧
      getUnread redis' m room = getUnread redis m room + events.length ∧
      (∀ e ∈ out', connGet conns e.1 ≠ none) ∧
      ∀ mid mm, (mid, m) ∉ db'.messageReads → lookupMessage db' mid = some mm →
        mm.chatRoomId = room →
        ∃ rr, handleWsMessage now noFaults (.markRead mid) m db' redis' conns2 = .ok rr ∧
          getUnread rr.redis m room = 0 := by
  obtain ⟨db', redis', out', hloop, hu, hm, hun, hout⟩ :=
    sendLoop_effect now sender conns room m hoff events db redis [] hsend huser hcount
  refine ⟨db', redis', out', hloop, hun, ?_, ?_⟩
  · intro e he
    rcases hout e he with hin | hconn
    · exact absurd hin (List.not_mem_nil e)
    · exact hconn
  · intro mid mm hnotin hmm hroom
    set dbr : Db := { db' with messageReads := db'.messageReads ++ [(mid, m)] } with hdbr
    have hmm1 : lookupMessage dbr mid = some mm := hmm
    refine ⟨⟨dbr, clearUnread redis' m mm.chatRoomId,
      match connGet conns2 mm.senderId with
      | some _ => [(mm.senderId, ServerEvent.messageRead mid m now)]
      | none => []⟩, ?_, ?_⟩
    · simp only [handleWsMessage, noFaults, Bool.false_eq_true, if_false,
        if_neg hnotin, hmm1]
    · rw [hroom]
      exact getUnread_clearUnread_self redis' m room

/-- Witness for C5: two messages sent to room 10 of `pairDb` while user 2
is offline leave user 2's unread counter at 2 and send user 2 nothing; a
first `mark_read` on message 6 (one of the two) drops it to 0. -/
theorem unread_accounting_witness :
    ∃ db' redis' out',
      recvLoop 9 1 [(1, 0)]
        (([ClientEvent.sendMessage 10 (some "hi") "text" none false none,
           ClientEvent.sendMessage 10 (some "yo") "text" none false none]).map
          (fun e => (some e, noFaults)))
        ⟨pairDb, redis0⟩ [] = .done ⟨db', redis'⟩ out' ∧
      getUnread redis' 2 10 = getUnread redis0 2 10 + 2 ∧
      (∀ e ∈ out', connGet [(1, 0)] e.1 ≠ none) ∧
      ∀ mid mm, (mid, 2) ∉ db'.messageReads → lookupMessage db' mid = some mm →
        mm.chatRoomId = 10 →
        ∃ rr, handleWsMessage 9 noFaults (.markRead mid) 2 db' redis' pairConns = .ok rr ∧
          getUnread rr.redis 2 10 = 0 :=
  unread_accounting 9 1 2 10 [(1, 0)] pairConns pairDb redis0
    [ClientEvent.sendMessage 10 (some "hi") "text" none false none,
     ClientEvent.sendMessage 10 (some "yo") "text" none false none]
    (by decide) (by decide) (by decide) (by decide)

end SocialApp
